import Mathlib

/-!
Shallow embedding of the `useInterval` React hook
(`src/hooks/useInterval.tsx`, the variant with pause/resume) and proofs
about its lifecycle state machine.

Modelling choices, all taken from the source:
* `setInterval` handles are modelled as fresh natural-number ids (starting
  at 1; real handles are non-null objects, so the JS truthiness test
  `if (intervalRef.current)` is modelled as `Option.isSome`).
* React refs (`intervalRef`, `callbackRef`, `pausedCallbackRef`) update
  synchronously; `useState` values have a *pending* copy (what `setX`
  wrote) and a *rendered* copy (what the closures created at the last
  render read).  A `refresh` step models a re-render: rendered state
  catches up with pending state, props are replaced, and effects whose
  dependencies changed are run.
* Callbacks are identified by natural numbers; the hook never inspects
  them, it only stores and invokes them.
* Time is an explicit counter; `advance` fires every live repeating timer
  the appropriate number of times, each firing invoking whatever occupies
  the callback slot at fire time, exactly as the `setInterval` thunk
  `() => callbackRef.current()` does.
-/

namespace IntervalHook

/-- Construction-time configuration of the hook, refreshed on every host
update: the callback (by id), the delay (`none` models the JS `null`
disabled sentinel) and the two options. -/
structure Props where
  callback : Nat
  delay : Option Nat
  immediate : Bool
  executeImmediately : Bool
deriving DecidableEq

/-- A live repeating timer registered with the host runtime: its handle id,
its period in milliseconds, and the instant it was registered (its ticks
fire at `last + period`, `last + 2*period`, ...). -/
structure Timer where
  tid : Nat
  period : Nat
  last : Nat
deriving DecidableEq

/-- The whole observable system: the hook instance plus the host runtime's
timer table, clock and invocation logs. -/
structure Sys where
  /-- props as of the last render; the memoized closures read these -/
  props : Props
  /-- `intervalRef.current` — updates synchronously -/
  intervalRef : Option Nat
  /-- `callbackRef.current` — the callback slot -/
  callbackRef : Nat
  /-- `pausedCallbackRef.current` -/
  pausedCallbackRef : Option Nat
  /-- `isActive` as the closures/host see it (rendered) -/
  activeRendered : Bool
  /-- `isPaused` as the closures/host see it (rendered) -/
  pausedRendered : Bool
  /-- latest value written through `setIsActive` -/
  activePending : Bool
  /-- latest value written through `setIsPaused` -/
  pausedPending : Bool
  /-- dependencies `(immediate, delay, start-identity)` of the auto-start
  effect at its last run; `none` before the first run -/
  immDeps : Option (Bool × Option Nat × Bool)
  /-- live timers of the host runtime -/
  timers : List Timer
  /-- next fresh timer handle id -/
  nextId : Nat
  /-- current time in milliseconds -/
  now : Nat
  /-- periodic-tick invocations so far (callback ids, in firing order) -/
  ticksLog : List Nat
  /-- synchronous (execute-immediately) invocations so far: (time, callback id) -/
  syncsLog : List (Nat × Nat)
deriving DecidableEq

/-- Dependency tuple of the auto-start effect.  Its literal dependencies are
`[immediate, delay, start]`, and the `useCallback` identity of `start`
changes exactly when `(delay, executeImmediately)` changes, so the tuple
reduces to `(immediate, delay, executeImmediately)`. -/
def effDeps (p : Props) : Bool × Option Nat × Bool :=
  (p.immediate, p.delay, p.executeImmediately)

/-- Handle ids of the live timers. -/
def liveIds (s : Sys) : List Nat := s.timers.map Timer.tid

/-- Model of `clearInterval id`: the timer with that handle is removed from
the runtime's table. -/
def clearTimer (s : Sys) (id : Nat) : Sys :=
  { s with timers := s.timers.filter fun t => t.tid != id }

/-- Model of `setInterval(() => callbackRef.current(), d)`: registers a
fresh repeating timer and returns its handle. -/
def newTimer (s : Sys) (d : Nat) : Sys × Nat :=
  ({ s with timers := s.timers ++ [⟨s.nextId, d, s.now⟩],
            nextId := s.nextId + 1 }, s.nextId)

/-- Model of `callbackRef.current()` executed synchronously. -/
def invokeNow (s : Sys) : Sys :=
  { s with syncsLog := s.syncsLog ++ [(s.now, s.callbackRef)] }

/-- The hook's `start`:
`if (intervalRef.current !== null || delay === null) return;` then an
optional immediate invocation, then `setInterval`, then
`setIsActive(true); setIsPaused(false)`. -/
def start (s : Sys) : Sys :=
  match s.props.delay with
  | none => s
  | some d =>
    if s.intervalRef.isSome then s
    else
      let s1 := if s.props.executeImmediately then invokeNow s else s
      let p := newTimer s1 d
      { p.1 with intervalRef := some p.2, activePending := true,
                 pausedPending := false }

/-- The hook's `stop`: clear the interval if the ref holds one, then
`setIsActive(false); setIsPaused(false); pausedCallbackRef.current = null`
unconditionally. -/
def stop (s : Sys) : Sys :=
  let s1 := match s.intervalRef with
    | some id => { clearTimer s id with intervalRef := none }
    | none => s
  { s1 with activePending := false, pausedPending := false,
            pausedCallbackRef := none }

/-- The hook's `pause`: guarded by `intervalRef.current && !isPaused`
(the rendered `isPaused` captured by the closure); clears the interval,
sets the paused flag, stores the current callback. -/
def pause (s : Sys) : Sys :=
  match s.intervalRef with
  | some id =>
    if s.pausedRendered then s
    else
      let s1 := clearTimer s id
      { s1 with intervalRef := none, pausedPending := true,
                pausedCallbackRef := some s.callbackRef }
  | none => s

/-- The hook's `resume`: guarded by `isPaused && delay !== null` (the
rendered `isPaused` captured by the closure — it does not consult
`intervalRef`); registers a new interval and clears the paused flag. -/
def resume (s : Sys) : Sys :=
  if s.pausedRendered then
    match s.props.delay with
    | none => s
    | some d =>
      let p := newTimer s d
      { p.1 with intervalRef := some p.2, pausedPending := false }
  else s

/-- The hook's `restart`: unconditionally clear any interval,
`setIsActive(false); setIsPaused(false)`, then, when the delay is enabled,
optionally invoke immediately and register the new interval before
returning (the source comments: "Start immediately without setTimeout to
avoid race condition"). -/
def restart (s : Sys) : Sys :=
  let s1 := match s.intervalRef with
    | some id => { clearTimer s id with intervalRef := none }
    | none => s
  let s2 := { s1 with activePending := false, pausedPending := false }
  match s2.props.delay with
  | none => s2
  | some d =>
    let s3 := if s2.props.executeImmediately then invokeNow s2 else s2
    let p := newTimer s3 d
    { p.1 with intervalRef := some p.2, activePending := true }

/-- Host destruction: the cleanup effect `useEffect(() => stop, [stop])`
runs `stop`. -/
def teardown (s : Sys) : Sys := stop s

/-- Body of the auto-start effect:
`if (immediate && delay !== null) start();`. -/
def runImmediateEffect (s : Sys) : Sys :=
  if s.props.immediate && s.props.delay.isSome then start s else s

/-- A re-render with (possibly new) props `p`: rendered state catches up
with pending state, the closures are rebuilt over `p`, the callback-slot
effect stores the new callback, and the auto-start effect re-runs exactly
when its dependency tuple changed.  A `setState` performed inside the
effect triggers a follow-up render, after which rendered state equals
pending state again — modelled by the final catch-up. -/
def refresh (s : Sys) (p : Props) : Sys :=
  let s1 := { s with activeRendered := s.activePending,
                     pausedRendered := s.pausedPending,
                     props := p, callbackRef := p.callback }
  let s2 := if s1.immDeps = some (effDeps p) then s1
            else
              let s' := runImmediateEffect s1
              { s' with immDeps := some (effDeps p) }
  { s2 with activeRendered := s2.activePending,
            pausedRendered := s2.pausedPending }

/-- Mounting the hook with initial props: fresh refs and state, then the
initial render's effects (modelled by a `refresh` whose `immDeps` is still
`none`, so the auto-start effect runs). -/
def mount (p : Props) : Sys :=
  refresh
    { props := p, intervalRef := none, callbackRef := p.callback,
      pausedCallbackRef := none,
      activeRendered := false, pausedRendered := false,
      activePending := false, pausedPending := false,
      immDeps := none, timers := [], nextId := 1, now := 0,
      ticksLog := [], syncsLog := [] } p

/-- Number of times a timer fires while time advances from `now` to
`now + dt` (ticks at `last + period`, `last + 2*period`, ...). -/
def fireCount (t : Timer) (now dt : Nat) : Nat :=
  (now + dt - t.last) / t.period - (now - t.last) / t.period

/-- Advancing the clock by `dt`: every live timer fires `fireCount` times,
each firing invoking the callback slot at fire time (no operation runs
during the advance, so the slot is constant throughout it). -/
def advance (s : Sys) (dt : Nat) : Sys :=
  { s with now := s.now + dt,
           ticksLog := s.ticksLog ++
             (s.timers.map fun t =>
               List.replicate (fireCount t s.now dt) s.callbackRef).flatten }

/-- Events a host can direct at the hook: the five operations, teardown, a
re-render with given props, and the passage of time. -/
inductive Op where
  | opStart : Op
  | opStop : Op
  | opPause : Op
  | opResume : Op
  | opRestart : Op
  | opTeardown : Op
  | opRefresh : Props → Op
  | opAdvance : Nat → Op
deriving DecidableEq

/-- One event. -/
def stepOp (s : Sys) : Op → Sys
  | Op.opStart => start s
  | Op.opStop => stop s
  | Op.opPause => pause s
  | Op.opResume => resume s
  | Op.opRestart => restart s
  | Op.opTeardown => teardown s
  | Op.opRefresh p => refresh s p
  | Op.opAdvance dt => advance s dt

/-- Run a sequence of events from a fresh mount. -/
def run (p : Props) (ops : List Op) : Sys := ops.foldl stepOp (mount p)

/-- A re-render with unchanged props: flushes pending state into rendered
state; the effects' dependencies are unchanged so no effect re-runs. -/
def settle (s : Sys) : Sys := refresh s s.props

/-- Run a sequence of events, the host re-rendering (with unchanged props)
after each one — the ordinary React regime in which each operation's
`setState` is flushed before the next operation is invoked. -/
def srun (p : Props) (ops : List Op) : Sys :=
  ops.foldl (fun s o => settle (stepOp s o)) (mount p)

/-- State invariant of the settled regime: live timers are exactly the one
the ref owns, rendered state agrees with pending state, the paused flag
implies the active flag, a live handle implies the active flag, the paused
flag implies the handle was released, the auto-start effect has run for the
current dependency tuple, and every timer has a sound id and timestamp. -/
def Inv (s : Sys) : Prop :=
  liveIds s = s.intervalRef.toList ∧
  s.activeRendered = s.activePending ∧
  s.pausedRendered = s.pausedPending ∧
  (s.pausedPending = true → s.activePending = true) ∧
  (s.intervalRef.isSome = true → s.activePending = true) ∧
  (s.pausedPending = true → s.intervalRef = none) ∧
  s.immDeps = some (effDeps s.props) ∧
  (∀ t ∈ s.timers, t.tid < s.nextId ∧ t.last ≤ s.now)

instance (s : Sys) : Decidable (Inv s) := by
  unfold Inv
  infer_instance

/-- Total number of periodic firings that advancing by `dt` produces. -/
def countFires (s : Sys) (dt : Nat) : Nat :=
  (s.timers.map fun t => fireCount t s.now dt).sum

/-- True of every event except a re-render whose props carry an enabled
delay: used to quantify over histories in which the delay stays disabled. -/
def refreshDisabledOnly : Op → Bool
  | Op.opRefresh q => q.delay == none
  | _ => true

/-- A hook that is stopped and whose delay is disabled. -/
def StoppedDisabled (s : Sys) : Prop :=
  s.props.delay = none ∧ s.intervalRef = none ∧ s.timers = [] ∧
  s.activeRendered = false ∧ s.activePending = false

/-- Props used in the double-`resume` run: delay 5 ms, no options. -/
def doubleResumeProps : Props := ⟨0, some 5, false, false⟩

/-- Start, settle, pause, settle, then call `resume` twice in the same
synchronous block (no re-render between the two calls). -/
def doubleResumeTrace : List Op :=
  [Op.opStart, Op.opRefresh doubleResumeProps, Op.opPause,
   Op.opRefresh doubleResumeProps, Op.opResume, Op.opResume]

/-- Props used in the illegal-flags run: delay 5 ms, no options. -/
def illegalFlagsProps : Props := ⟨0, some 5, false, false⟩

/-- Reach Paused, then call `stop` and `resume` in the same synchronous
block, re-render, pause again, re-render. -/
def illegalFlagsTrace : List Op :=
  [Op.opStart, Op.opRefresh illegalFlagsProps, Op.opPause,
   Op.opRefresh illegalFlagsProps, Op.opStop, Op.opResume,
   Op.opRefresh illegalFlagsProps, Op.opPause, Op.opRefresh illegalFlagsProps]

/-- A settled Paused controller with executeImmediately configured:
start then pause, the host re-rendering after each call. -/
def pausedExecImm : Sys :=
  srun ⟨0, some 5, false, true⟩ [Op.opStart, Op.opPause]

/-- Auto-start props: immediate configured, delay 10 ms. -/
def autoProps : Props := ⟨0, some 10, true, false⟩

/-- The same props with the delay changed to another enabled value. -/
def autoProps2 : Props := ⟨0, some 20, true, false⟩

/-- Flattening a map of constant replications is one replication of the sum. -/
theorem flatten_replicate_const (l : List Timer) (f : Timer → Nat) (c : Nat) :
    (l.map fun t => List.replicate (f t) c).flatten =
      List.replicate ((l.map f).sum) c := by
  induction l with
  | nil => rfl
  | cons t ts ih =>
    simp only [List.map_cons, List.flatten_cons, List.sum_cons, ih,
      List.replicate_add]

/-- What advancing time appends to the periodic-tick log: one entry per
firing, every entry invoking the current callback slot. -/
theorem advance_ticksLog_eq (s : Sys) (dt : Nat) :
    (advance s dt).ticksLog =
      s.ticksLog ++ List.replicate (countFires s dt) s.callbackRef := by
  unfold advance countFires
  rw [flatten_replicate_const]

/-- With no live timers, time passing produces no ticks. -/
theorem advance_ticksLog_of_timers_nil (s : Sys) (h : s.timers = []) (dt : Nat) :
    (advance s dt).ticksLog = s.ticksLog := by
  rw [advance_ticksLog_eq]
  simp [countFires, h]

/-- The second of two consecutive `stop` calls changes nothing. -/
theorem stop_stop (s : Sys) : stop (stop s) = stop s := by
  cases s with
  | mk props ref cb pcb aR pR aP pP deps tms nid now tl sl =>
    cases ref <;> rfl

/-- A singleton live-id list pins down the timer table. -/
theorem timers_of_singleton_live (s : Sys) (id : Nat)
    (hlive : liveIds s = [id]) :
    ∃ t : Timer, s.timers = [t] ∧ t.tid = id := by
  unfold liveIds at hlive
  cases hts : s.timers with
  | nil => rw [hts] at hlive; simp at hlive
  | cons t ts =>
    rw [hts] at hlive
    simp only [List.map_cons, List.cons.injEq] at hlive
    obtain ⟨h1, h2⟩ := hlive
    have hts0 : ts = [] := by
      cases ts with
      | nil => rfl
      | cons u us => simp at h2
    exact ⟨t, by rw [hts0], h1⟩

/-- Clearing the handle the ref owns empties a single-owner timer table. -/
theorem clearTimer_ref (s : Sys) (id : Nat) (hlive : liveIds s = [id]) :
    (clearTimer s id).timers = [] := by
  obtain ⟨t, ht, htid⟩ := timers_of_singleton_live s id hlive
  simp [clearTimer, ht, htid]

/-- With a released ref, a single-owner timer table is empty. -/
theorem timers_nil_of_ref_none (s : Sys)
    (hlive : liveIds s = s.intervalRef.toList) (h : s.intervalRef = none) :
    s.timers = [] := by
  rw [h] at hlive
  unfold liveIds at hlive
  simpa using hlive

/-- C1: the single-live-handle invariant fails in the code.  `resume` is
guarded by the render-time `isPaused` value captured in its closure, not by
`intervalRef`, so calling `resume` twice in succession from a Paused
controller before any intervening state refresh registers a second interval
while the first is still live: two live timer handles exist at once, and
one elapsed delay then fires the callback twice instead of once. -/
theorem resume_twice_leaks_two_timers :
    (run doubleResumeProps doubleResumeTrace).timers.length = 2 ∧
    (advance (run doubleResumeProps doubleResumeTrace) 5).ticksLog.length = 2 := by
  decide

/-- C6: the claimed status invariant fails in the code.  From a Paused
controller, calling `stop` and then `resume` in the same synchronous block
(before a re-render) lets `resume`'s stale `isPaused` closure revive a timer
while `isActive` is pending false; the next `pause` then produces the
rendered combination `isActive = false, isPaused = true`, which the claim
says is never observable. -/
theorem stop_resume_reaches_illegal_flags :
    (run illegalFlagsProps illegalFlagsTrace).activeRendered = false ∧
    (run illegalFlagsProps illegalFlagsTrace).pausedRendered = true := by
  decide

/-- C2 counterexample: a settled Paused controller (`isActive` and
`isPaused` both rendered true) has already had its handle released by
`pause`, so `start` — whose guard tests only `intervalRef` — is *not* a
no-op there: it registers a fresh handle (id 2), synchronously invokes the
callback because executeImmediately is configured, and clears the paused
flag, contradicting the claim for the Paused case. -/
theorem start_in_paused_not_noop :
    pausedExecImm.activeRendered = true ∧
    pausedExecImm.pausedRendered = true ∧
    pausedExecImm.intervalRef = none ∧
    (start pausedExecImm).intervalRef = some 2 ∧
    (start pausedExecImm).syncsLog.length = pausedExecImm.syncsLog.length + 1 ∧
    (start pausedExecImm).pausedPending = false := by
  decide

/-- C10 counterexample: with `immediate` configured, after a manual `stop`
(controller Stopped, settled, no live handle) an update that changes the
delay between two enabled values (10 ms to 20 ms, no disabled-to-enabled
edge anywhere in the run) re-runs the auto-start effect and auto-starts the
controller again, contradicting the claim that auto-start happens only on
disabled-to-enabled edges of the delay. -/
theorem auto_start_retriggers_on_enabled_change :
    (run autoProps [Op.opStop, Op.opRefresh autoProps]).intervalRef = none ∧
    (run autoProps [Op.opStop, Op.opRefresh autoProps]).activeRendered = false ∧
    (run autoProps
      [Op.opStop, Op.opRefresh autoProps, Op.opRefresh autoProps2]).intervalRef
        = some 2 ∧
    (run autoProps
      [Op.opStop, Op.opRefresh autoProps, Op.opRefresh autoProps2]).activeRendered
        = true := by
  decide

/-- Every event keeps a stopped, delay-disabled hook stopped, provided
re-renders keep the delay disabled. -/
theorem stepOp_stoppedDisabled (s : Sys) (o : Op)
    (hs : StoppedDisabled s) (ho : refreshDisabledOnly o = true) :
    StoppedDisabled (stepOp s o) := by
  obtain ⟨hd, hr, ht, haR, haP⟩ := hs
  cases o with
  | opStart =>
    simpa [stepOp, start, hd] using ⟨hd, hr, ht, haR, haP⟩
  | opStop =>
    refine ⟨?_, ?_, ?_, ?_, ?_⟩ <;> simp [stepOp, stop, hr, hd, ht, haR]
  | opPause =>
    simpa [stepOp, pause, hr] using ⟨hd, hr, ht, haR, haP⟩
  | opResume =>
    simpa [stepOp, resume, hd] using ⟨hd, hr, ht, haR, haP⟩
  | opRestart =>
    refine ⟨?_, ?_, ?_, ?_, ?_⟩ <;> simp [stepOp, restart, hr, hd, ht, haR]
  | opTeardown =>
    refine ⟨?_, ?_, ?_, ?_, ?_⟩ <;>
      simp [stepOp, teardown, stop, hr, hd, ht, haR]
  | opRefresh q =>
    have hq : q.delay = none := by
      simpa [refreshDisabledOnly] using ho
    refine ⟨?_, ?_, ?_, ?_, ?_⟩ <;>
      simp [stepOp, refresh, runImmediateEffect, hq, hr, ht, haR, haP] <;>
      split <;> simp [hq, hr, ht, haP]
  | opAdvance dt =>
    refine ⟨?_, ?_, ?_, ?_, ?_⟩ <;> simp [stepOp, advance, hd, hr, ht, haR, haP]

/-- A whole history of such events keeps the hook stopped. -/
theorem foldl_stoppedDisabled (ops : List Op) :
    ∀ s : Sys, StoppedDisabled s →
      (∀ o ∈ ops, refreshDisabledOnly o = true) →
      StoppedDisabled (ops.foldl stepOp s) := by
  induction ops with
  | nil => intro s hs _; exact hs
  | cons o os ih =>
    intro s hs ho
    exact ih _ (stepOp_stoppedDisabled s o hs (ho o (by simp)))
      (fun o' ho' => ho o' (by simp [ho']))

/-- Mounting with a disabled delay yields a stopped, delay-disabled hook. -/
theorem mount_stoppedDisabled (p : Props) (hp : p.delay = none) :
    StoppedDisabled (mount p) := by
  refine ⟨?_, ?_, ?_, ?_, ?_⟩ <;>
    simp [mount, refresh, runImmediateEffect, start, hp, effDeps]

/-- C2 (amended): `start` is an exact no-op whenever a live timer handle
exists (state Running) or the delay is disabled — no handle is created or
reset, no callback is invoked, no flag is written; and with a disabled
delay the controller has `isActive = false`, no handle and no live timer
after every history of operations and elapsed time (re-renders keeping the
delay disabled).  The amendment: in state Paused the handle has already
been released, so `start` is not a no-op there — it registers a fresh
handle, sets the active flag, clears the paused flag, and synchronously
invokes the callback when executeImmediately is configured. -/
theorem start_noop_amended :
    (∀ s : Sys, s.intervalRef.isSome = true ∨ s.props.delay = none →
      start s = s) ∧
    (∀ p : Props, p.delay = none → ∀ ops : List Op,
      (∀ o ∈ ops, refreshDisabledOnly o = true) →
      (run p ops).activeRendered = false ∧ (run p ops).activePending = false ∧
        (run p ops).timers = []) ∧
    (∀ s : Sys, Inv s → s.pausedRendered = true →
      ∀ d : Nat, s.props.delay = some d →
      (start s).intervalRef = some s.nextId ∧
      (start s).activePending = true ∧ (start s).pausedPending = false ∧
      (s.props.executeImmediately = true →
        (start s).syncsLog = s.syncsLog ++ [(s.now, s.callbackRef)])) := by
  refine ⟨?_, ?_, ?_⟩
  · intro s h
    rcases h with h | h
    · cases hd : s.props.delay with
      | none => simp [start, hd]
      | some d => simp [start, hd, h]
    · simp [start, h]
  · intro p hp ops hops
    have := foldl_stoppedDisabled ops (mount p) (mount_stoppedDisabled p hp) hops
    exact ⟨this.2.2.2.1, this.2.2.2.2, this.2.2.1⟩
  · intro s hInv hpr d hd
    obtain ⟨hlive, haRP, hpRP, hpa, hia, hpn, hdeps, hts⟩ := hInv
    have hpp : s.pausedPending = true := hpRP ▸ hpr
    have href : s.intervalRef = none := hpn hpp
    cases he : s.props.executeImmediately <;>
      simp [start, hd, href, he, invokeNow, newTimer]

/-- C2 witness: with a disabled delay the controller is inactive after
`start` and 7 ms; and from the settled Paused state with executeImmediately
configured, `start` installs the fresh handle. -/
theorem start_noop_amended_witness :
    (run (⟨0, none, false, true⟩ : Props)
      [Op.opStart, Op.opAdvance 7]).activeRendered = false ∧
    (start pausedExecImm).intervalRef = some pausedExecImm.nextId :=
  ⟨(start_noop_amended.2.1 ⟨0, none, false, true⟩ rfl
      [Op.opStart, Op.opAdvance 7] (by decide)).1,
   (start_noop_amended.2.2 pausedExecImm (by decide) (by decide) 5
      (by decide)).1⟩

/-- C3: from every single-owner state, `restart` releases any existing
handle, resets the paused flag and re-arms before returning: with the delay
enabled the returned state is Running and owns exactly one, fresh, handle
(an id never live before); with the delay disabled it is Stopped with no
live timer; and `restart` immediately followed by `stop` in the same
synchronous block leaves the controller Stopped with no live timer and zero
pending ticks for any amount of elapsed time. -/
theorem restart_spec (s : Sys) (h : Inv s) :
    (∀ d : Nat, s.props.delay = some d →
      (restart s).intervalRef = some s.nextId ∧
      s.nextId ∉ liveIds s ∧
      liveIds (restart s) = [s.nextId] ∧
      (restart s).activePending = true ∧ (restart s).pausedPending = false) ∧
    (s.props.delay = none →
      (restart s).intervalRef = none ∧ (restart s).timers = [] ∧
      (restart s).activePending = false ∧ (restart s).pausedPending = false) ∧
    ((stop (restart s)).intervalRef = none ∧ (stop (restart s)).timers = [] ∧
      (stop (restart s)).activePending = false ∧
      (stop (restart s)).pausedPending = false ∧
      ∀ dt : Nat, (advance (stop (restart s)) dt).ticksLog =
        (stop (restart s)).ticksLog) := by
  obtain ⟨hlive, haRP, hpRP, hpa, hia, hpn, hdeps, hts⟩ := h
  have hfresh : s.nextId ∉ liveIds s := by
    unfold liveIds
    intro hmem
    simp only [List.mem_map] at hmem
    obtain ⟨t, htm, htt⟩ := hmem
    have := (hts t htm).1
    omega
  have hclr : ∀ id : Nat, s.intervalRef = some id →
      s.timers.filter (fun t => t.tid != id) = [] := by
    intro id href
    have := clearTimer_ref s id (by rw [hlive, href]; rfl)
    simpa [clearTimer] using this
  have hnil : s.intervalRef = none → s.timers = [] := fun href =>
    timers_nil_of_ref_none s hlive href
  have hrest : ∀ d : Nat, s.props.delay = some d →
      (restart s).intervalRef = some s.nextId ∧
      (restart s).timers = [⟨s.nextId, d, s.now⟩] ∧
      (restart s).activePending = true ∧ (restart s).pausedPending = false := by
    intro d hd
    cases href : s.intervalRef with
    | none =>
      cases he : s.props.executeImmediately <;>
        simp [restart, href, hd, he, invokeNow, newTimer, hnil href]
    | some id =>
      cases he : s.props.executeImmediately <;>
        simp [restart, href, hd, he, invokeNow, newTimer, clearTimer, hclr id href]
  have hrnone : s.props.delay = none →
      (restart s).intervalRef = none ∧ (restart s).timers = [] ∧
      (restart s).activePending = false ∧ (restart s).pausedPending = false := by
    intro hd
    cases href : s.intervalRef with
    | none => simp [restart, href, hd, hnil href]
    | some id => simp [restart, href, hd, clearTimer, hclr id href]
  refine ⟨?_, hrnone, ?_⟩
  · intro d hd
    refine ⟨(hrest d hd).1, hfresh, ?_, (hrest d hd).2.2.1, (hrest d hd).2.2.2⟩
    unfold liveIds
    rw [(hrest d hd).2.1]
    rfl
  · have hst : (stop (restart s)).timers = [] := by
      cases hd : s.props.delay with
      | none =>
        have := (hrnone hd).1
        have ht2 := (hrnone hd).2.1
        simp [stop, this, ht2]
      | some d =>
        have h1 := (hrest d hd).1
        have h2 := (hrest d hd).2.1
        simp [stop, h1, h2, clearTimer]
    have hsr : (stop (restart s)).intervalRef = none := by
      cases hri : (restart s).intervalRef <;> simp [stop, hri]
    refine ⟨hsr, hst, by simp [stop], by simp [stop], ?_⟩
    intro dt
    exact advance_ticksLog_of_timers_nil _ hst dt

/-- C3 witness: restarting a settled Running controller installs the fresh
handle, and an immediate `stop` leaves no live timer. -/
theorem restart_spec_witness :
    (restart (srun (⟨7, some 4, false, false⟩ : Props)
      [Op.opStart])).intervalRef = some 2 ∧
    (stop (restart (srun (⟨7, some 4, false, false⟩ : Props)
      [Op.opStart]))).timers = [] :=
  ⟨((restart_spec (srun (⟨7, some 4, false, false⟩ : Props) [Op.opStart])
      (by decide)).1 4 rfl).1,
   (restart_spec (srun (⟨7, some 4, false, false⟩ : Props) [Op.opStart])
      (by decide)).2.2.2.1⟩

/-- Clearing (via filter) the handle the ref owns empties a single-owner
timer table. -/
theorem filter_ref_nil (s : Sys) (hlive : liveIds s = s.intervalRef.toList)
    (id : Nat) (href : s.intervalRef = some id) :
    s.timers.filter (fun t => t.tid != id) = [] := by
  have := clearTimer_ref s id (by rw [hlive, href]; rfl)
  simpa [clearTimer] using this

/-- A re-render with unchanged props whose auto-start effect has already
run for the current dependencies only flushes pending state into rendered
state. -/
theorem settle_flags (s : Sys) (hdeps : s.immDeps = some (effDeps s.props)) :
    (settle s).activeRendered = s.activePending ∧
    (settle s).pausedRendered = s.pausedPending ∧
    (settle s).intervalRef = s.intervalRef ∧ (settle s).timers = s.timers := by
  unfold settle refresh
  simp [hdeps]

/-- C4: supplying a new callback (a host update changing only the callback
prop) overwrites the callback slot and touches nothing else: the handle,
the timer table (hence the whole schedule), the fresh-id counter, the logs
and both status flags are unchanged.  Every tick that fires afterwards
invokes the slot at fire time — the new callback — with tick counts
computed from the unchanged timers; and a callback replaced while Paused is
the one invoked after `resume`, whose fresh timer fires it every `d` ms. -/
theorem callback_swap_currency (s : Sys) (c : Nat) (h : Inv s) :
    ((refresh s { s.props with callback := c }).intervalRef = s.intervalRef ∧
     (refresh s { s.props with callback := c }).timers = s.timers ∧
     (refresh s { s.props with callback := c }).nextId = s.nextId ∧
     (refresh s { s.props with callback := c }).activeRendered
        = s.activeRendered ∧
     (refresh s { s.props with callback := c }).pausedRendered
        = s.pausedRendered ∧
     (refresh s { s.props with callback := c }).syncsLog = s.syncsLog ∧
     (refresh s { s.props with callback := c }).ticksLog = s.ticksLog ∧
     (refresh s { s.props with callback := c }).callbackRef = c) ∧
    (∀ dt : Nat,
      (advance (refresh s { s.props with callback := c }) dt).ticksLog =
        s.ticksLog ++ List.replicate (countFires s dt) c) ∧
    (∀ d dt : Nat, s.pausedRendered = true → s.props.delay = some d →
      (advance (resume (refresh s { s.props with callback := c })) dt).ticksLog
        = s.ticksLog ++ List.replicate (dt / d) c) := by
  obtain ⟨hlive, haRP, hpRP, hpa, hia, hpn, hdeps, hts⟩ := h
  have hchar : refresh s { s.props with callback := c } =
      { s with props := { s.props with callback := c }, callbackRef := c,
               activeRendered := s.activePending,
               pausedRendered := s.pausedPending } := by
    simp [refresh, effDeps, hdeps]
  rw [hchar]
  refine ⟨⟨rfl, rfl, rfl, haRP.symm, hpRP.symm, rfl, rfl, rfl⟩, ?_, ?_⟩
  · intro dt
    rw [advance_ticksLog_eq]
    rfl
  · intro d dt hpr hd
    have hpp : s.pausedPending = true := hpRP ▸ hpr
    have href : s.intervalRef = none := hpn hpp
    have htnil : s.timers = [] := timers_nil_of_ref_none s hlive href
    simp only [resume, hpp, hd, newTimer, htnil, if_true]
    rw [advance_ticksLog_eq]
    simp [countFires, fireCount, htnil, Nat.add_sub_cancel_left, Nat.sub_self]

/-- C4 witness: replacing the callback (id 9) on a running controller
leaves the handle in place, and one elapsed period fires the new callback
once. -/
theorem callback_swap_currency_witness :
    (refresh (srun (⟨3, some 6, false, false⟩ : Props) [Op.opStart])
        { (srun (⟨3, some 6, false, false⟩ : Props) [Op.opStart]).props with
            callback := 9 }).intervalRef
      = (srun (⟨3, some 6, false, false⟩ : Props) [Op.opStart]).intervalRef ∧
    (advance (refresh (srun (⟨3, some 6, false, false⟩ : Props) [Op.opStart])
        { (srun (⟨3, some 6, false, false⟩ : Props) [Op.opStart]).props with
            callback := 9 }) 6).ticksLog
      = (srun (⟨3, some 6, false, false⟩ : Props) [Op.opStart]).ticksLog ++
          List.replicate
            (countFires (srun (⟨3, some 6, false, false⟩ : Props)
              [Op.opStart]) 6) 9 :=
  ⟨(callback_swap_currency (srun (⟨3, some 6, false, false⟩ : Props)
      [Op.opStart]) 9 (by decide)).1.1,
   (callback_swap_currency (srun (⟨3, some 6, false, false⟩ : Props)
      [Op.opStart]) 9 (by decide)).2.1 6⟩

/-- C5: from every single-owner state, `stop` releases the live handle if
any, clears the ref and both flags (so after the host re-renders, `isActive`
and `isPaused` are both false), and advancing time by any amount afterwards
produces zero further periodic invocations.  When the controller is already
Stopped, `stop` changes nothing observable (it only re-clears the internal
`pausedCallbackRef`, a slot the hook never reads). -/
theorem stop_spec (s : Sys) (h : Inv s) :
    (stop s).intervalRef = none ∧ (stop s).timers = [] ∧
    (stop s).activePending = false ∧ (stop s).pausedPending = false ∧
    (settle (stop s)).activeRendered = false ∧
    (settle (stop s)).pausedRendered = false ∧
    (s.activePending = false →
      stop s = { s with pausedCallbackRef := none }) ∧
    (∀ dt : Nat, (advance (stop s) dt).ticksLog = (stop s).ticksLog) := by
  obtain ⟨hlive, haRP, hpRP, hpa, hia, hpn, hdeps, hts⟩ := h
  have h1 : (stop s).intervalRef = none := by
    cases href : s.intervalRef <;> simp [stop, href]
  have h2 : (stop s).timers = [] := by
    cases href : s.intervalRef with
    | none => simp [stop, href, timers_nil_of_ref_none s hlive href]
    | some id => simp [stop, href, clearTimer, filter_ref_nil s hlive id href]
  have h3 : (stop s).activePending = false := by
    cases href : s.intervalRef <;> simp [stop, href]
  have h4 : (stop s).pausedPending = false := by
    cases href : s.intervalRef <;> simp [stop, href]
  have hsp : (stop s).props = s.props := by
    cases href : s.intervalRef <;> simp [stop, clearTimer, href]
  have hsd : (stop s).immDeps = s.immDeps := by
    cases href : s.intervalRef <;> simp [stop, clearTimer, href]
  have hdeps2 : (stop s).immDeps = some (effDeps (stop s).props) := by
    rw [hsd, hsp, hdeps]
  have hsf := settle_flags (stop s) hdeps2
  refine ⟨h1, h2, h3, h4, by rw [hsf.1, h3], by rw [hsf.2.1, h4], ?_, ?_⟩
  · intro haP
    have href : s.intervalRef = none := by
      cases href0 : s.intervalRef with
      | none => rfl
      | some id =>
        have hx : s.activePending = true := hia (by simp [href0])
        rw [haP] at hx
        exact absurd hx (by simp)
    have hpp : s.pausedPending = false := by
      cases hb : s.pausedPending with
      | false => rfl
      | true =>
        have hx := hpa hb
        rw [haP] at hx
        exact absurd hx (by simp)
    cases s with
    | mk props ref cb pcb aR pR aP pP deps tms nid now tl sl =>
      dsimp only at href haP hpp
      subst href haP hpp
      rfl
  · intro dt
    exact advance_ticksLog_of_timers_nil _ h2 dt

/-- C5 witness: stopping a paused controller clears everything and 25 ms
later no tick has fired; stopping an already stopped controller only
re-clears the unread internal slot. -/
theorem stop_spec_witness :
    (stop (srun (⟨2, some 5, false, false⟩ : Props)
      [Op.opStart, Op.opPause])).timers = [] ∧
    stop (srun (⟨2, some 5, false, false⟩ : Props) [Op.opStop]) =
      { srun (⟨2, some 5, false, false⟩ : Props) [Op.opStop] with
          pausedCallbackRef := none } ∧
    (advance (stop (srun (⟨2, some 5, false, false⟩ : Props)
      [Op.opStart, Op.opPause])) 25).ticksLog =
      (stop (srun (⟨2, some 5, false, false⟩ : Props)
        [Op.opStart, Op.opPause])).ticksLog :=
  ⟨(stop_spec (srun (⟨2, some 5, false, false⟩ : Props)
      [Op.opStart, Op.opPause]) (by decide)).2.1,
   (stop_spec (srun (⟨2, some 5, false, false⟩ : Props) [Op.opStop])
      (by decide)).2.2.2.2.2.2.1 (by decide),
   (stop_spec (srun (⟨2, some 5, false, false⟩ : Props)
      [Op.opStart, Op.opPause]) (by decide)).2.2.2.2.2.2.2 25⟩

/-- C7: in a single-owner state, `pause` on a Running controller (live
handle, not paused) releases the handle — no live timer remains — keeps the
props (hence the delay) and the callback slot, sets the paused flag and
leaves the active flag set; `pause` with no live handle (Stopped, or Paused
where the handle was already released) is an exact no-op.  `resume` on a
Paused controller with an enabled delay registers exactly one fresh timer
with the current delay and callback, clears the paused flag, leaves the
active flag set, and the fresh timer starts a full period: no tick fires
before `d` ms elapse.  `resume` when not paused, or with a disabled delay,
is an exact no-op. -/
theorem pause_resume_spec (s : Sys) (h : Inv s) :
    (∀ id : Nat, s.intervalRef = some id → s.pausedRendered = false →
      (pause s).timers = [] ∧ (pause s).intervalRef = none ∧
      (pause s).pausedPending = true ∧ (pause s).activePending = true ∧
      (pause s).props = s.props ∧ (pause s).callbackRef = s.callbackRef ∧
      (pause s).pausedCallbackRef = some s.callbackRef) ∧
    (s.intervalRef = none → pause s = s) ∧
    (∀ d : Nat, s.pausedRendered = true → s.props.delay = some d →
      (resume s).intervalRef = some s.nextId ∧
      (resume s).timers = [⟨s.nextId, d, s.now⟩] ∧
      (resume s).pausedPending = false ∧ (resume s).activePending = true ∧
      (resume s).callbackRef = s.callbackRef ∧
      (∀ dt : Nat, dt < d → (advance (resume s) dt).ticksLog = s.ticksLog)) ∧
    (s.pausedRendered = false → resume s = s) ∧
    (s.props.delay = none → resume s = s) := by
  obtain ⟨hlive, haRP, hpRP, hpa, hia, hpn, hdeps, hts⟩ := h
  refine ⟨?_, ?_, ?_, ?_, ?_⟩
  · intro id href hpr
    have hact : s.activePending = true := hia (by simp [href])
    refine ⟨?_, ?_, ?_, ?_, ?_, ?_, ?_⟩ <;>
      simp [pause, href, hpr, clearTimer, filter_ref_nil s hlive id href, hact]
  · intro href
    simp [pause, href]
  · intro d hpr hd
    have hpp : s.pausedPending = true := hpRP ▸ hpr
    have href : s.intervalRef = none := hpn hpp
    have htnil : s.timers = [] := timers_nil_of_ref_none s hlive href
    have hact : s.activePending = true := hpa hpp
    refine ⟨?_, ?_, ?_, ?_, ?_, ?_⟩ <;>
      simp [resume, hpr, hd, newTimer, htnil, hact]
    intro dt hdt
    rw [advance_ticksLog_eq]
    simp [countFires, resume, hpr, hd, newTimer, htnil, fireCount,
      Nat.add_sub_cancel_left, Nat.sub_self, Nat.div_eq_of_lt hdt]
  · intro hpr
    simp [resume, hpr]
  · intro hd
    simp [resume, hd]

/-- C7 witness: pausing the running controller releases its timer, resuming
installs handle 2 with a full fresh period (no tick in the first 7 of its
8 ms), and resuming a stopped controller changes nothing. -/
theorem pause_resume_spec_witness :
    (pause (srun (⟨4, some 8, false, false⟩ : Props) [Op.opStart])).timers
      = [] ∧
    (resume (srun (⟨4, some 8, false, false⟩ : Props)
      [Op.opStart, Op.opPause])).intervalRef = some 2 ∧
    (advance (resume (srun (⟨4, some 8, false, false⟩ : Props)
      [Op.opStart, Op.opPause])) 7).ticksLog
      = (srun (⟨4, some 8, false, false⟩ : Props)
          [Op.opStart, Op.opPause]).ticksLog ∧
    resume (srun (⟨4, some 8, false, false⟩ : Props) [])
      = srun (⟨4, some 8, false, false⟩ : Props) [] :=
  ⟨((pause_resume_spec (srun (⟨4, some 8, false, false⟩ : Props) [Op.opStart])
      (by decide)).1 1 (by decide) (by decide)).1,
   ((pause_resume_spec (srun (⟨4, some 8, false, false⟩ : Props)
      [Op.opStart, Op.opPause]) (by decide)).2.2.1 8 (by decide)
      (by decide)).1,
   ((pause_resume_spec (srun (⟨4, some 8, false, false⟩ : Props)
      [Op.opStart, Op.opPause]) (by decide)).2.2.1 8 (by decide)
      (by decide)).2.2.2.2.2 7 (by decide),
   (pause_resume_spec (srun (⟨4, some 8, false, false⟩ : Props) [])
      (by decide)).2.2.2.1 (by decide)⟩

/-- C8: teardown (the unmount cleanup effect, which runs `stop`) releases
any live timer from a single-owner state — afterwards no timer is live and
advancing time by any amount fires nothing; running teardown a second time
changes nothing at all (so a handle is never released twice); and teardown
with no live handle releases nothing, fires nothing and is therefore a safe
no-op.  All operations of the model are total functions, so no error is
ever raised. -/
theorem teardown_spec (s : Sys) (h : Inv s) :
    (teardown s).timers = [] ∧ (teardown s).intervalRef = none ∧
    (∀ dt : Nat, (advance (teardown s) dt).ticksLog = (teardown s).ticksLog) ∧
    teardown (teardown s) = teardown s ∧
    (s.intervalRef = none →
      (teardown s).timers = s.timers ∧ (teardown s).ticksLog = s.ticksLog ∧
      (teardown s).syncsLog = s.syncsLog) := by
  obtain ⟨hlive, haRP, hpRP, hpa, hia, hpn, hdeps, hts⟩ := h
  have h2 : (teardown s).timers = [] := by
    cases href : s.intervalRef with
    | none =>
      simp [teardown, stop, href, timers_nil_of_ref_none s hlive href]
    | some id =>
      simp [teardown, stop, href, clearTimer, filter_ref_nil s hlive id href]
  have h1 : (teardown s).intervalRef = none := by
    cases href : s.intervalRef <;> simp [teardown, stop, href]
  refine ⟨h2, h1, ?_, stop_stop s, ?_⟩
  · intro dt
    exact advance_ticksLog_of_timers_nil _ h2 dt
  · intro href
    refine ⟨?_, ?_, ?_⟩ <;>
      simp [teardown, stop, href, timers_nil_of_ref_none s hlive href]

/-- C8 witness: tearing down a running controller leaves no timer and no
later tick; a second teardown is identical; teardown of a freshly mounted
(stopped) controller releases nothing. -/
theorem teardown_spec_witness :
    (teardown (srun (⟨5, some 9, false, false⟩ : Props) [Op.opStart])).timers
      = [] ∧
    teardown (teardown (srun (⟨5, some 9, false, false⟩ : Props)
      [Op.opStart]))
      = teardown (srun (⟨5, some 9, false, false⟩ : Props) [Op.opStart]) ∧
    (teardown (srun (⟨5, some 9, false, false⟩ : Props) [])).timers
      = (srun (⟨5, some 9, false, false⟩ : Props) []).timers :=
  ⟨(teardown_spec (srun (⟨5, some 9, false, false⟩ : Props) [Op.opStart])
      (by decide)).1,
   (teardown_spec (srun (⟨5, some 9, false, false⟩ : Props) [Op.opStart])
      (by decide)).2.2.2.1,
   ((teardown_spec (srun (⟨5, some 9, false, false⟩ : Props) [])
      (by decide)).2.2.2.2 (by decide)).1⟩

/-- A freshly registered timer fires `dt / d` times in the next `dt` ms. -/
theorem fireCount_fresh (nid d n dt : Nat) :
    fireCount ⟨nid, d, n⟩ n dt = dt / d := by
  simp [fireCount, Nat.add_sub_cancel_left, Nat.sub_self]

/-- Advancing with a single live timer appends its firings, each invoking
the current callback slot. -/
theorem advance_ticksLog_single (s : Sys) (t : Timer) (ht : s.timers = [t])
    (dt : Nat) :
    (advance s dt).ticksLog =
      s.ticksLog ++ List.replicate (fireCount t s.now dt) s.callbackRef := by
  rw [advance_ticksLog_eq]
  simp [countFires, ht]

/-- In a single-owner state with an enabled delay, `restart` returns with
exactly the one fresh timer installed, flags set for Running, the optional
immediate invocation logged, and the clock and tick log untouched. -/
theorem restart_enabled_chars (s : Sys)
    (hlive : liveIds s = s.intervalRef.toList)
    (d : Nat) (hd : s.props.delay = some d) :
    (restart s).timers = [⟨s.nextId, d, s.now⟩] ∧
    (restart s).callbackRef = s.callbackRef ∧
    (restart s).ticksLog = s.ticksLog ∧ (restart s).now = s.now ∧
    (s.props.executeImmediately = true →
      (restart s).syncsLog = s.syncsLog ++ [(s.now, s.callbackRef)]) := by
  cases href : s.intervalRef with
  | none =>
    have htnil := timers_nil_of_ref_none s hlive href
    cases he : s.props.executeImmediately <;>
      simp [restart, href, hd, he, invokeNow, newTimer, htnil]
  | some id =>
    have hfil := filter_ref_nil s hlive id href
    cases he : s.props.executeImmediately <;>
      simp [restart, href, hd, he, invokeNow, newTimer, clearTimer, hfil]

/-- C9: with executeImmediately configured, activating via `start` (from a
state with no live handle and an enabled delay) or via `restart` (with an
enabled delay) synchronously invokes the callback slot exactly once, logged
at the current instant; the periodic schedule is separate: activation
itself appends no periodic tick, no periodic tick fires in the first
`d - 1` ms, and the first one fires once a full delay `d` has elapsed.
These are the only synchronous invocations: `resume`, `stop`, `pause`, and
a `start` that no-ops (live handle or disabled delay) never invoke the
callback synchronously. -/
theorem executeImmediately_spec (s : Sys) (h : Inv s) :
    (∀ d : Nat, s.props.executeImmediately = true → s.props.delay = some d →
      s.intervalRef = none →
      (start s).syncsLog = s.syncsLog ++ [(s.now, s.callbackRef)] ∧
      (start s).ticksLog = s.ticksLog ∧
      (∀ dt : Nat, dt < d → (advance (start s) dt).ticksLog = s.ticksLog) ∧
      (0 < d → (advance (start s) d).ticksLog = s.ticksLog ++ [s.callbackRef])) ∧
    (∀ d : Nat, s.props.executeImmediately = true → s.props.delay = some d →
      (restart s).syncsLog = s.syncsLog ++ [(s.now, s.callbackRef)] ∧
      (0 < d →
        (advance (restart s) d).ticksLog = s.ticksLog ++ [s.callbackRef])) ∧
    (resume s).syncsLog = s.syncsLog ∧
    (s.intervalRef.isSome = true ∨ s.props.delay = none →
      (start s).syncsLog = s.syncsLog) ∧
    (stop s).syncsLog = s.syncsLog ∧ (pause s).syncsLog = s.syncsLog := by
  obtain ⟨hlive, haRP, hpRP, hpa, hia, hpn, hdeps, hts⟩ := h
  refine ⟨?_, ?_, ?_, ?_, ?_, ?_⟩
  · intro d he hd href
    have htnil := timers_nil_of_ref_none s hlive href
    have hstart : (start s).timers = [⟨s.nextId, d, s.now⟩] ∧
        (start s).callbackRef = s.callbackRef ∧
        (start s).ticksLog = s.ticksLog ∧ (start s).now = s.now ∧
        (start s).syncsLog = s.syncsLog ++ [(s.now, s.callbackRef)] := by
      refine ⟨?_, ?_, ?_, ?_, ?_⟩ <;>
        simp [start, hd, href, he, invokeNow, newTimer, htnil]
    refine ⟨hstart.2.2.2.2, hstart.2.2.1, ?_, ?_⟩
    · intro dt hdt
      rw [advance_ticksLog_single (start s) _ hstart.1, hstart.2.2.2.1,
        hstart.2.2.1, fireCount_fresh]
      simp [Nat.div_eq_of_lt hdt]
    · intro hdpos
      rw [advance_ticksLog_single (start s) _ hstart.1, hstart.2.2.2.1,
        hstart.2.2.1, hstart.2.1, fireCount_fresh, Nat.div_self hdpos]
      rfl
  · intro d he hd
    have hre := restart_enabled_chars s hlive d hd
    refine ⟨hre.2.2.2.2 he, ?_⟩
    intro hdpos
    rw [advance_ticksLog_single (restart s) _ hre.1, hre.2.2.2.1, hre.2.1,
      hre.2.2.1, fireCount_fresh, Nat.div_self hdpos]
    rfl
  · cases hpr : s.pausedRendered with
    | false => simp [resume, hpr]
    | true => cases hd : s.props.delay <;> simp [resume, hpr, hd, newTimer]
  · intro hno
    rcases hno with hrs | hdn
    · cases hd : s.props.delay <;> simp [start, hd, hrs]
    · simp [start, hdn]
  · cases href : s.intervalRef <;> simp [stop, clearTimer, href]
  · cases href : s.intervalRef with
    | none => simp [pause, href]
    | some id =>
      cases hpr : s.pausedRendered <;> simp [pause, href, hpr, clearTimer]

/-- C9 witness: with executeImmediately and delay 10, `start` logs one
synchronous invocation, no periodic tick fires in the first 9 ms, and the
first periodic tick fires at 10 ms; `resume` from Paused logs none. -/
theorem executeImmediately_spec_witness :
    (start (mount (⟨6, some 10, false, true⟩ : Props))).syncsLog =
      (mount (⟨6, some 10, false, true⟩ : Props)).syncsLog ++ [(0, 6)] ∧
    (advance (start (mount (⟨6, some 10, false, true⟩ : Props))) 9).ticksLog
      = (mount (⟨6, some 10, false, true⟩ : Props)).ticksLog ∧
    (advance (start (mount (⟨6, some 10, false, true⟩ : Props))) 10).ticksLog
      = (mount (⟨6, some 10, false, true⟩ : Props)).ticksLog ++ [6] ∧
    (resume (srun (⟨6, some 10, false, true⟩ : Props)
      [Op.opStart, Op.opPause])).syncsLog =
      (srun (⟨6, some 10, false, true⟩ : Props)
        [Op.opStart, Op.opPause]).syncsLog :=
  ⟨((executeImmediately_spec (mount (⟨6, some 10, false, true⟩ : Props))
      (by decide)).1 10 rfl rfl rfl).1,
   ((executeImmediately_spec (mount (⟨6, some 10, false, true⟩ : Props))
      (by decide)).1 10 rfl rfl rfl).2.2.1 9 (by decide),
   ((executeImmediately_spec (mount (⟨6, some 10, false, true⟩ : Props))
      (by decide)).1 10 rfl rfl rfl).2.2.2 (by decide),
   (executeImmediately_spec (srun (⟨6, some 10, false, true⟩ : Props)
      [Op.opStart, Op.opPause]) (by decide)).2.2.1⟩

/-- C10 (amended): the auto-start effect re-runs on mount and on exactly
those host updates where its dependency tuple (immediate, delay,
executeImmediately) changed — not only on disabled-to-enabled delay edges.
Consequences, from every single-owner state: an update with an unchanged
tuple never auto-starts (handle, timers, id counter and sync log are
untouched); an update with a changed tuple, immediate configured, an
enabled delay and no live handle auto-starts the controller (fresh handle
installed, Running when rendered); an update with a changed tuple while a
handle is live is absorbed by `start`'s guard (handle and timers
untouched), which is what makes enabled-to-enabled delay changes invisible
*while Running*; with immediate off no update ever auto-starts; and
mounting with immediate configured and an enabled delay auto-starts at
once. -/
theorem auto_start_spec (s : Sys) (p' : Props) (h : Inv s) :
    (effDeps p' = effDeps s.props →
      (refresh s p').timers = s.timers ∧
      (refresh s p').intervalRef = s.intervalRef ∧
      (refresh s p').nextId = s.nextId ∧
      (refresh s p').syncsLog = s.syncsLog) ∧
    (∀ d : Nat, effDeps p' ≠ effDeps s.props → p'.immediate = true →
      p'.delay = some d → s.intervalRef = none →
      (refresh s p').intervalRef = some s.nextId ∧
      (refresh s p').activePending = true ∧
      (refresh s p').activeRendered = true) ∧
    (effDeps p' ≠ effDeps s.props → s.intervalRef.isSome = true →
      (refresh s p').timers = s.timers ∧
      (refresh s p').intervalRef = s.intervalRef) ∧
    (p'.immediate = false →
      (refresh s p').timers = s.timers ∧
      (refresh s p').intervalRef = s.intervalRef) ∧
    (∀ d : Nat, p'.immediate = true → p'.delay = some d →
      (mount p').intervalRef = some 1 ∧ (mount p').activeRendered = true) := by
  obtain ⟨hlive, haRP, hpRP, hpa, hia, hpn, hdeps, hts⟩ := h
  refine ⟨?_, ?_, ?_, ?_, ?_⟩
  · intro heq
    refine ⟨?_, ?_, ?_, ?_⟩ <;> simp [refresh, heq, hdeps]
  · intro d hne hi hd href
    have hcond : ¬ (s.immDeps = some (effDeps p')) := by
      rw [hdeps]
      intro hx
      exact hne (by injection hx with hx2; rw [hx2])
    cases he : p'.executeImmediately <;>
      refine ⟨?_, ?_, ?_⟩ <;>
        simp [refresh, runImmediateEffect, start, hcond, hi, hd, he, href,
          invokeNow, newTimer]
  · intro hne hrs
    have hcond : ¬ (s.immDeps = some (effDeps p')) := by
      rw [hdeps]
      intro hx
      exact hne (by injection hx with hx2; rw [hx2])
    cases hi : p'.immediate with
    | false =>
      refine ⟨?_, ?_⟩ <;> simp [refresh, runImmediateEffect, hcond, hi]
    | true =>
      cases hd : p'.delay with
      | none =>
        refine ⟨?_, ?_⟩ <;>
          simp [refresh, runImmediateEffect, hcond, hi, hd]
      | some d =>
        refine ⟨?_, ?_⟩ <;>
          simp [refresh, runImmediateEffect, start, hcond, hi, hd, hrs]
  · intro hi
    constructor <;>
      · simp only [refresh, runImmediateEffect, hi]
        split <;> simp
  · intro d hi hd
    cases he : p'.executeImmediately <;>
      refine ⟨?_, ?_⟩ <;>
        simp [mount, refresh, runImmediateEffect, start, hi, hd, he,
          invokeNow, newTimer]

/-- C10 witness: an update that only swaps the callback (dependency tuple
unchanged) does not auto-start a stopped controller; mounting with
immediate and delay 10 auto-starts at once; and with immediate off an
update never starts anything. -/
theorem auto_start_spec_witness :
    (refresh (srun autoProps [Op.opStop])
        (⟨1, some 10, true, false⟩ : Props)).intervalRef
      = (srun autoProps [Op.opStop]).intervalRef ∧
    (mount (⟨0, some 10, true, true⟩ : Props)).intervalRef = some 1 ∧
    (refresh (srun (⟨0, some 10, false, false⟩ : Props) [])
        (⟨0, some 20, false, false⟩ : Props)).intervalRef
      = (srun (⟨0, some 10, false, false⟩ : Props) []).intervalRef :=
  ⟨((auto_start_spec (srun autoProps [Op.opStop])
      (⟨1, some 10, true, false⟩ : Props) (by decide)).1 (by decide)).2.1,
   ((auto_start_spec (mount (⟨0, some 10, true, true⟩ : Props))
      (⟨0, some 10, true, true⟩ : Props) (by decide)).2.2.2.2 10 rfl rfl).1,
   ((auto_start_spec (srun (⟨0, some 10, false, false⟩ : Props) [])
      (⟨0, some 20, false, false⟩ : Props) (by decide)).2.2.2.1 rfl).2⟩

end IntervalHook
